import Mathlib

/-!
Shallow embedding of the configuration-resolution and supervision logic of
`sshtunnel.py` (SamuelDeal/ssh_tunnels), together with theorems settling the
frozen specification claims.

Python dictionaries that are only written with `d[k] = v` and read with
`d[k]` / `k in d` are modelled as association lists without duplicate keys:
`fsSet` overwrites in place (keeping the original position, as CPython does)
or appends, and `fsGet` looks a key up.  Ordered iteration over such a
dictionary is iteration over the association list.
-/

namespace SshTunnels

/-- Raw field set of one configuration section: ordered mapping from
lower-cased key strings to string values (`dict[str, str]` in the source). -/
abbrev FieldSet := List (String × String)

/-- Association-list lookup, modelling `d[k]` / `k in d` on a Python dict. -/
def alGet {α : Type} : List (String × α) → String → Option α
  | [], _ => none
  | (k', v) :: rest, k => if k' = k then some v else alGet rest k

/-- Association-list update, modelling `d[k] = v` on a Python dict:
overwrites the first (unique) binding of `k` in place, else appends. -/
def alSet {α : Type} : List (String × α) → String → α → List (String × α)
  | [], k, v => [(k, v)]
  | (k', v') :: rest, k, v =>
    if k' = k then (k', v) :: rest else (k', v') :: alSet rest k v

/-- Field-set lookup (`fields[k]`). -/
def fsGet (fs : FieldSet) (k : String) : Option String := alGet fs k

/-- Field-set update (`fields[k] = v`). -/
def fsSet (fs : FieldSet) (k : String) (v : String) : FieldSet := alSet fs k v

/-- Overlay a list of key/value pairs onto a field set in order, modelling
`for key in parser.options(section): fields[key] = parser.get(section, key)`. -/
def overlay (fs : FieldSet) (opts : List (String × String)) : FieldSet :=
  opts.foldl (fun acc kv => fsSet acc kv.1 kv.2) fs

/-- Value of the last binding of `k` in a raw option list (the binding that
survives after the list is overlaid onto anything). -/
def lookupLast : List (String × String) → String → Option String
  | [], _ => none
  | kv :: rest, k =>
    match lookupLast rest k with
    | some v => some v
    | none => if kv.1 = k then some kv.2 else none

theorem alGet_alSet_self {α : Type} (l : List (String × α)) (k : String) (v : α) :
    alGet (alSet l k v) k = some v := by
  induction l with
  | nil => simp [alGet, alSet]
  | cons kv rest ih =>
    obtain ⟨k', v'⟩ := kv
    by_cases h : k' = k
    · simp [alGet, alSet, h]
    · simp [alGet, alSet, h, ih]

theorem alGet_alSet_ne {α : Type} (l : List (String × α)) (k' k : String) (v : α)
    (h : k' ≠ k) : alGet (alSet l k' v) k = alGet l k := by
  induction l with
  | nil => simp [alGet, alSet, h]
  | cons kv rest ih =>
    obtain ⟨k₀, v₀⟩ := kv
    by_cases h₀ : k₀ = k'
    · subst h₀
      simp [alGet, alSet, h]
    · simp [alGet, alSet, h₀, ih]

theorem fsGet_fsSet_self (fs : FieldSet) (k : String) (v : String) :
    fsGet (fsSet fs k v) k = some v := alGet_alSet_self fs k v

theorem fsGet_fsSet_ne (fs : FieldSet) (k' k : String) (v : String) (h : k' ≠ k) :
    fsGet (fsSet fs k' v) k = fsGet fs k := alGet_alSet_ne fs k' k v h

theorem fsGet_overlay (fs : FieldSet) (opts : List (String × String)) (k : String) :
    fsGet (overlay fs opts) k =
      match lookupLast opts k with
      | some v => some v
      | none => fsGet fs k := by
  induction opts generalizing fs with
  | nil => simp [overlay, lookupLast]
  | cons kv rest ih =>
    show fsGet (overlay (fsSet fs kv.1 kv.2) rest) k = _
    rw [ih]
    cases hrest : lookupLast rest k with
    | some v => simp [lookupLast, hrest]
    | none =>
      by_cases hk : kv.1 = k
      · subst hk
        simp [lookupLast, hrest, fsGet_fsSet_self]
      · simp [lookupLast, hrest, hk, fsGet_fsSet_ne fs kv.1 k kv.2 hk]

theorem lookupLast_append (a b : List (String × String)) (k : String) :
    lookupLast (a ++ b) k =
      match lookupLast b k with
      | some v => some v
      | none => lookupLast a k := by
  induction a with
  | nil => cases h : lookupLast b k <;> simp [lookupLast, h]
  | cons kv rest ih =>
    show lookupLast (kv :: (rest ++ b)) k = _
    rw [lookupLast, ih]
    cases hb : lookupLast b k <;> cases hr : lookupLast rest k <;>
      simp [lookupLast, hr]

/-- One parsed section of the flattened document, as handed over by the
config parser: its name and its ordered option list (keys lower-cased,
values already interpolated).  `parser.sections()` is modelled as a list of
such sections in document order, with distinct names. -/
structure CfgSection where
  name : String
  options : List (String × String)

/-- Test `"/" in section` of the source (single-character substring test). -/
def slashIn (s : String) : Bool := s.toList.contains '/'

/-- Test `section in ("global", "common")` of the source. -/
def isReserved (s : String) : Bool := s = "global" || s = "common"

/-- First pass of `TunnelConfig._analyse_config`: fold every option of every
section literally named `global` or `common` into one common field set, in
section-iteration (document) order. -/
def commonFieldsOf (secs : List CfgSection) : FieldSet :=
  secs.foldl
    (fun acc s => if isReserved s.name then overlay acc s.options else acc) []

/-- Second pass of `TunnelConfig._analyse_config`: every non-reserved,
slash-free section is a group; its field set is seeded from a copy of the
common field set on first sight and then overlaid with the section's own
options. -/
def groupFieldsOf (common : FieldSet) (secs : List CfgSection) :
    List (String × FieldSet) :=
  secs.foldl
    (fun acc s =>
      if isReserved s.name || slashIn s.name then acc
      else
        let base :=
          match alGet acc s.name with
          | some fs => fs
          | none => common
        alSet acc s.name (overlay base s.options))
    []

/-- Locate the first `'/'` of a character list: `some (before, after)`, or
`none` when there is no slash. -/
def breakSlash : List Char → Option (List Char × List Char)
  | [] => none
  | c :: rest =>
    if c = '/' then some ([], rest)
    else
      match breakSlash rest with
      | some (pre, post) => some (c :: pre, post)
      | none => none

/-- Python `s.split("/", maxsplit)` on character lists: at most `maxsplit`
splits, leftmost first. -/
def splitSlash : Nat → List Char → List (List Char)
  | 0, cs => [cs]
  | m + 1, cs =>
    match breakSlash cs with
    | none => [cs]
    | some (pre, post) => pre :: splitSlash m post

/-- Model of `group, tunnel_name = section.split("/", 2)`: the unpacking
succeeds only when the split yields exactly two parts (the section holds
exactly one slash); otherwise Python raises `ValueError`. -/
def splitSec (name : String) : Option (String × String) :=
  match splitSlash 2 name.toList with
  | [g, t] => some (g.asString, t.asString)
  | _ => none

/-- Errors surfacing from `_analyse_config` (caught by `_parse_config`'s
catch-all and re-raised as `ConfigError`). -/
inductive AnalyseErr
  | unpackErr (sectionName : String)
  deriving DecidableEq, Repr

/-- Third pass of `TunnelConfig._analyse_config`: every section containing a
slash is split into `(group, tunnel_name)`; the tunnel's field set is seeded
from a copy of the group's resolved field set (empty when the group has no
standalone section), `tunnel_name` is injected, the section's own options
are overlaid, and the result is appended to the group's ordered list. -/
def tunnelCfgsOf (gf : List (String × FieldSet)) (secs : List CfgSection) :
    Except AnalyseErr (List (String × List FieldSet)) :=
  secs.foldlM
    (fun acc s =>
      if isReserved s.name || !slashIn s.name then pure acc
      else
        match splitSec s.name with
        | none => Except.error (AnalyseErr.unpackErr s.name)
        | some (g, t) =>
          let fields₀ :=
            match alGet gf g with
            | some fs => fs
            | none => []
          let fields₁ := fsSet fields₀ "tunnel_name" t
          let acc₁ :=
            match alGet acc g with
            | some _ => acc
            | none => alSet acc g []
          let fields₂ := overlay fields₁ s.options
          pure (alSet acc₁ g (((alGet acc₁ g).getD []) ++ [fields₂])))
    []

/-- Fourth pass of `TunnelConfig._analyse_config`: every group whose field
set is non-empty but which acquired no tunnel entries gets a single
synthetic entry named `default_tunnel` built from its field set. -/
def defaultsPass (gf : List (String × FieldSet))
    (tc : List (String × List FieldSet)) : List (String × List FieldSet) :=
  gf.foldl
    (fun acc gfs =>
      if (alGet acc gfs.1).isSome || gfs.2.isEmpty then acc
      else alSet acc gfs.1 [fsSet gfs.2 "tunnel_name" "default_tunnel"])
    tc

/-- `TunnelConfig._analyse_config`: mapping from group name to the ordered
list of raw per-tunnel field sets. -/
def analyseConfig (secs : List CfgSection) :
    Except AnalyseErr (List (String × List FieldSet)) :=
  let common := commonFieldsOf secs
  let gf := groupFieldsOf common secs
  match tunnelCfgsOf gf secs with
  | Except.error e => Except.error e
  | Except.ok tc => Except.ok (defaultsPass gf tc)

theorem toList_append_str (a b : String) :
    (a ++ b).toList = a.toList ++ b.toList := by
  simp [String.toList, String.data_append]

theorem asString_toList_str (s : String) : (s.toList).asString = s := rfl

theorem breakSlash_of_no_slash (cs : List Char) (h : cs.contains '/' = false) :
    breakSlash cs = none := by
  induction cs with
  | nil => rfl
  | cons c rest ih =>
    simp only [List.contains_cons, Bool.or_eq_false_iff] at h
    have hc : ¬ c = '/' := by
      intro he
      subst he
      simp at h
    simp [breakSlash, hc, ih h.2]

theorem breakSlash_append (a b : List Char) (h : a.contains '/' = false) :
    breakSlash (a ++ '/' :: b) = some (a, b) := by
  induction a with
  | nil => simp [breakSlash]
  | cons c rest ih =>
    simp only [List.contains_cons, Bool.or_eq_false_iff] at h
    have hc : ¬ c = '/' := by
      intro he
      subst he
      simp at h
    simp [breakSlash, hc, ih h.2]

theorem splitSlash_of_no_slash (n : Nat) (cs : List Char)
    (h : cs.contains '/' = false) : splitSlash n cs = [cs] := by
  cases n with
  | zero => rfl
  | succ m => simp [splitSlash, breakSlash_of_no_slash cs h]

theorem slashIn_append_slash (g t : String) :
    slashIn (g ++ "/" ++ t) = true := by
  simp [slashIn, toList_append_str]

theorem not_reserved_of_slashIn (s : String) (h : slashIn s = true) :
    isReserved s = false := by
  rcases hr : isReserved s with _ | _
  · rfl
  · exfalso
    simp only [isReserved, Bool.or_eq_true, decide_eq_true_eq] at hr
    rcases hr with hr | hr <;> subst hr <;> simp [slashIn] at h

theorem splitSlash_succ_append (m : Nat) (a b : List Char)
    (h : a.contains '/' = false) :
    splitSlash (m + 1) (a ++ '/' :: b) = a :: splitSlash m b := by
  rw [splitSlash, breakSlash_append a b h]

theorem splitSec_one_slash (g t : String) (hg : slashIn g = false)
    (ht : slashIn t = false) : splitSec (g ++ "/" ++ t) = some (g, t) := by
  have hsplit : (g ++ "/" ++ t).toList = g.toList ++ '/' :: t.toList := by
    simp [toList_append_str]
  have e1 : splitSlash 2 ((g ++ "/" ++ t).toList) =
      g.toList :: splitSlash 1 t.toList := by
    rw [hsplit]
    exact splitSlash_succ_append 1 _ _ hg
  have e2 : splitSlash 1 t.toList = [t.toList] :=
    splitSlash_of_no_slash 1 t.toList ht
  simp only [splitSec, e1, e2]
  rfl

theorem splitSec_two_slashes (g t rest : String) (hg : slashIn g = false)
    (ht : slashIn t = false) :
    splitSec (g ++ "/" ++ t ++ "/" ++ rest) = none := by
  have hsplit : (g ++ "/" ++ t ++ "/" ++ rest).toList =
      g.toList ++ '/' :: (t.toList ++ '/' :: rest.toList) := by
    simp [toList_append_str]
  have e1 : splitSlash 2 ((g ++ "/" ++ t ++ "/" ++ rest).toList) =
      g.toList :: splitSlash 1 (t.toList ++ '/' :: rest.toList) := by
    rw [hsplit]
    exact splitSlash_succ_append 1 _ _ hg
  have e2 : splitSlash 1 (t.toList ++ '/' :: rest.toList) =
      t.toList :: splitSlash 0 rest.toList :=
    splitSlash_succ_append 0 _ _ ht
  simp only [splitSec, e1, e2]
  rfl

theorem analyse_group_only (cs gs : List (String × String)) (g : String)
    (hgres : isReserved g = false) (hgsl : slashIn g = false)
    (hne : overlay (overlay [] cs) gs ≠ []) :
    analyseConfig [⟨"common", cs⟩, ⟨g, gs⟩] =
      Except.ok [(g, [fsSet (overlay (overlay [] cs) gs)
        "tunnel_name" "default_tunnel"])] := by
  have hGF : (overlay (overlay [] cs) gs).isEmpty = false := by
    cases h : overlay (overlay [] cs) gs with
    | nil => exact absurd h hne
    | cons x l => rfl
  have hcom : isReserved "common" = true := rfl
  simp [analyseConfig, commonFieldsOf, groupFieldsOf, tunnelCfgsOf,
    defaultsPass, hgres, hgsl, hcom, alGet, alSet, hGF, hne, pure, Except.pure, bind, Except.bind]

theorem analyse_group_tunnel (cs gs ts : List (String × String)) (g t : String)
    (hgres : isReserved g = false) (hgsl : slashIn g = false)
    (htsl : slashIn t = false) :
    analyseConfig [⟨"common", cs⟩, ⟨g, gs⟩, ⟨g ++ "/" ++ t, ts⟩] =
      Except.ok [(g, [overlay (fsSet (overlay (overlay [] cs) gs)
        "tunnel_name" t) ts])] := by
  have hsl : slashIn (g ++ "/" ++ t) = true := slashIn_append_slash g t
  have hres : isReserved (g ++ "/" ++ t) = false :=
    not_reserved_of_slashIn _ hsl
  have hsec : splitSec (g ++ "/" ++ t) = some (g, t) :=
    splitSec_one_slash g t hgsl htsl
  have hcom : isReserved "common" = true := rfl
  simp [analyseConfig, commonFieldsOf, groupFieldsOf, tunnelCfgsOf,
    defaultsPass, hgres, hgsl, hsl, hres, hsec, hcom, alGet, alSet, pure, Except.pure, bind, Except.bind]

theorem commonFoldAux (secs : List CfgSection) (acc : FieldSet) (k : String) :
    fsGet (secs.foldl (fun a s =>
        if isReserved s.name then overlay a s.options else a) acc) k =
      match lookupLast (((secs.filter fun s => isReserved s.name).map
          CfgSection.options).flatten) k with
      | some v => some v
      | none => fsGet acc k := by
  induction secs generalizing acc with
  | nil => simp [lookupLast]
  | cons s rest ih =>
    by_cases h : isReserved s.name
    · rw [List.foldl_cons]
      simp only [h, if_true, List.filter_cons, List.map_cons,
        List.flatten_cons]
      rw [ih, lookupLast_append, fsGet_overlay]
      cases hr : lookupLast (((rest.filter fun s => isReserved s.name).map
          CfgSection.options).flatten) k <;>
        cases ho : lookupLast s.options k <;> simp
    · simp only [List.foldl_cons, h, if_false, Bool.false_eq_true,
        List.filter_cons, List.map_cons]
      rw [ih]

/-- Claim C1 (corrected), merge layering: in a document holding a `common`
section, a group section `g` and a tunnel section `g/t`, a key written in
all three layers resolves at the tunnel level to the tunnel-section value,
and a key written only in the `common` layer reaches the tunnel's resolved
field set with its common value.  (The correction: this common-inheritance
only holds for tunnels whose group has a standalone group section — see the
counterexample — so the document here declares the group section.) -/
theorem c1_merge_layering
    (cs gs ts : List (String × String)) (g t k v0 v1 v2 k' w : String)
    (hgres : isReserved g = false) (hgsl : slashIn g = false)
    (htsl : slashIn t = false)
    (hk0 : lookupLast cs k = some v0) (hk1 : lookupLast gs k = some v1)
    (hk2 : lookupLast ts k = some v2)
    (hw0 : lookupLast cs k' = some w) (hw1 : lookupLast gs k' = none)
    (hw2 : lookupLast ts k' = none) (hkn : k' ≠ "tunnel_name") :
    ∃ e, analyseConfig [⟨"common", cs⟩, ⟨g, gs⟩, ⟨g ++ "/" ++ t, ts⟩] =
        Except.ok [(g, [e])] ∧ fsGet e k = some v2 ∧ fsGet e k' = some w := by
  refine ⟨overlay (fsSet (overlay (overlay [] cs) gs) "tunnel_name" t) ts,
    analyse_group_tunnel cs gs ts g t hgres hgsl htsl, ?_, ?_⟩
  · rw [fsGet_overlay, hk2]
  · rw [fsGet_overlay, hw2]
    show fsGet (fsSet (overlay (overlay [] cs) gs) "tunnel_name" t) k' =
      some w
    rw [fsGet_fsSet_ne _ _ _ _ (Ne.symm hkn), fsGet_overlay, hw1]
    show fsGet (overlay [] cs) k' = some w
    rw [fsGet_overlay, hw0]

/-- Claim C1, counterexample to the claim as stated: in a document where the
key `k` is set only in the `common` layer but the tunnel section `g/t` has
no standalone group section `g`, the resolved tunnel field set is seeded
from the empty dict (not from the common field set), so `k` is absent — the
common value is not visible in every tunnel's resolved field set. -/
theorem c1_counterexample :
    analyseConfig [⟨"common", [("k", "w")]⟩, ⟨"g/t", [("local_port", "1")]⟩] =
      Except.ok [("g", [[("tunnel_name", "t"), ("local_port", "1")]])] ∧
    fsGet [("tunnel_name", "t"), ("local_port", "1")] "k" = none := by
  exact ⟨rfl, rfl⟩

/-- Claim C1 witness: the layering theorem applied to a concrete document. -/
theorem c1_merge_layering_witness :
    ∃ e, analyseConfig [⟨"common", [("k", "0"), ("c", "w")]⟩,
        ⟨"g", [("k", "1")]⟩, ⟨"g/t", [("k", "2")]⟩] =
        Except.ok [("g", [e])] ∧
      fsGet e "k" = some "2" ∧ fsGet e "c" = some "w" := by
  exact c1_merge_layering [("k", "0"), ("c", "w")] [("k", "1")] [("k", "2")]
    "g" "t" "k" "0" "1" "2" "c" "w" (by decide) (by decide) (by decide)
    (by decide) (by decide) (by decide) (by decide) (by decide) (by decide)
    (by decide)

/-- Claim C5 (confirmed): a group whose resolved field set is non-empty but
which has no `group/tunnel` section yields exactly one synthetic tunnel
entry named `default_tunnel` carrying exactly the group's resolved fields;
a group with an explicit tunnel section gets exactly the explicit entry and
no synthetic one. -/
theorem c5_default_tunnel_synthesis
    (cs gs ts : List (String × String)) (g t : String)
    (hgres : isReserved g = false) (hgsl : slashIn g = false)
    (htsl : slashIn t = false) :
    (overlay (overlay [] cs) gs ≠ [] →
      analyseConfig [⟨"common", cs⟩, ⟨g, gs⟩] =
        Except.ok [(g, [fsSet (overlay (overlay [] cs) gs)
          "tunnel_name" "default_tunnel"])]) ∧
    analyseConfig [⟨"common", cs⟩, ⟨g, gs⟩, ⟨g ++ "/" ++ t, ts⟩] =
      Except.ok [(g, [overlay (fsSet (overlay (overlay [] cs) gs)
        "tunnel_name" t) ts])] :=
  ⟨fun hne => analyse_group_only cs gs g hgres hgsl hne,
   analyse_group_tunnel cs gs ts g t hgres hgsl htsl⟩

/-- Claim C5 witness: default-tunnel synthesis on a concrete document. -/
theorem c5_default_tunnel_synthesis_witness :
    analyseConfig [⟨"common", [("remote_port", "80")]⟩,
        ⟨"g", [("local_port", "1")]⟩] =
      Except.ok [("g", [[("remote_port", "80"), ("local_port", "1"),
        ("tunnel_name", "default_tunnel")]])] ∧
    analyseConfig [⟨"common", [("remote_port", "80")]⟩,
        ⟨"g", [("local_port", "1")]⟩, ⟨"g/t", [("x", "y")]⟩] =
      Except.ok [("g", [[("remote_port", "80"), ("local_port", "1"),
        ("tunnel_name", "t"), ("x", "y")]])] := by
  exact ⟨(c5_default_tunnel_synthesis [("remote_port", "80")]
      [("local_port", "1")] [("x", "y")] "g" "t" (by decide) (by decide)
      (by decide)).1 (by decide),
    (c5_default_tunnel_synthesis [("remote_port", "80")]
      [("local_port", "1")] [("x", "y")] "g" "t" (by decide) (by decide)
      (by decide)).2⟩

/-- Claim C7, counterexample to the claim as stated: the section name
`a/b/c` does not resolve to group `a` and tunnel name `b/c`; the source's
`section.split("/", 2)` yields three parts, the two-variable unpacking
raises `ValueError`, and the whole analysis is a fatal error. -/
theorem c7_counterexample :
    splitSec "a/b/c" = none ∧
    analyseConfig [⟨"a/b/c", [("x", "1")]⟩] =
      Except.error (AnalyseErr.unpackErr "a/b/c") := by
  exact ⟨rfl, rfl⟩

/-- Claim C7 (corrected): a section with exactly one slash is split into
`(group, tunnel_name)` on that slash, while a section with two or more
slashes is a fatal error (the `ValueError` of unpacking `split("/", 2)`,
surfacing as a `ConfigError`), rather than splitting on the first slash
only. -/
theorem c7_split_exactly_one_slash
    (g t rest : String) (hg : slashIn g = false) (ht : slashIn t = false)
    (opts : List (String × String)) :
    splitSec (g ++ "/" ++ t) = some (g, t) ∧
    splitSec (g ++ "/" ++ t ++ "/" ++ rest) = none ∧
    analyseConfig [⟨g ++ "/" ++ t ++ "/" ++ rest, opts⟩] =
      Except.error (AnalyseErr.unpackErr (g ++ "/" ++ t ++ "/" ++ rest)) := by
  refine ⟨splitSec_one_slash g t hg ht,
    splitSec_two_slashes g t rest hg ht, ?_⟩
  have hsl : slashIn (g ++ "/" ++ t ++ "/" ++ rest) = true :=
    slashIn_append_slash (g ++ "/" ++ t) rest
  have hres : isReserved (g ++ "/" ++ t ++ "/" ++ rest) = false :=
    not_reserved_of_slashIn _ hsl
  have hsec : splitSec (g ++ "/" ++ t ++ "/" ++ rest) = none :=
    splitSec_two_slashes g t rest hg ht
  simp [analyseConfig, commonFieldsOf, groupFieldsOf, tunnelCfgsOf,
    hres, hsl, hsec, pure, Except.pure, bind, Except.bind]

/-- Claim C7 witness: the amended split behaviour at concrete names. -/
theorem c7_split_exactly_one_slash_witness :
    splitSec "a/b" = some ("a", "b") ∧
    splitSec "a/b/c" = none ∧
    analyseConfig [⟨"a/b/c", [("y", "2")]⟩] =
      Except.error (AnalyseErr.unpackErr "a/b/c") := by
  exact c7_split_exactly_one_slash "a" "b" "c" (by decide) (by decide)
    [("y", "2")]

/-- Claim C8, counterexample to the claim as stated: with a `common` section
appearing before a `global` section, the colliding key resolves to the
`global` value, not the `common` one — section document order, not the
`common` name, decides. -/
theorem c8_counterexample :
    fsGet (commonFieldsOf [⟨"common", [("k", "a")]⟩,
      ⟨"global", [("k", "b")]⟩]) "k" ≠ some "a" := by
  decide

/-- Claim C8 (corrected): the common field set folds the options of all
sections named `global` or `common` in document order, so for every key the
surviving value is the last binding in document order; in particular when
`global` precedes `common` (the order the spec describes) the `common`
value wins, but not regardless of order. -/
theorem c8_reserved_fold_doc_order :
    (∀ (secs : List CfgSection) (k : String),
      fsGet (commonFieldsOf secs) k =
        lookupLast (((secs.filter fun s => isReserved s.name).map
          CfgSection.options).flatten) k) ∧
    fsGet (commonFieldsOf [⟨"global", [("k", "b")]⟩,
      ⟨"common", [("k", "a")]⟩]) "k" = some "a" := by
  constructor
  · intro secs k
    rw [commonFieldsOf, commonFoldAux]
    cases h : lookupLast (((secs.filter fun s => isReserved s.name).map
        CfgSection.options).flatten) k <;> simp [fsGet, alGet]
  · decide

/-- The durable `Tunnel` entity of the source: one validated, immutable
tunnel configuration. -/
structure Tunnel where
  name : String
  group_name : String
  ssh_options : List String
  ssh_key : Option String
  ssh_user : Option String
  ssh_port : Int
  remote_server : String
  remote_address : String
  remote_port : Int
  local_address : String
  local_port : Int
  reverse : Bool
  deriving DecidableEq, Repr

/-- One step of the scan in `TunnelConfig.get_tunnels`: the loop body tests
`name`, then `group_name`, then `remote_server`, then `remote_address`
against the requested identifiers, appends the tunnel on the first hit and
records only that one matching identifier in `found_identifiers`.  The
accumulators never feed back into the branch conditions, so the loop is the
obvious structural recursion. -/
def getTunnelsScan : List Tunnel → List String → List Tunnel × List String
  | [], _ => ([], [])
  | t :: rest, ids =>
    let tail := getTunnelsScan rest ids
    if ids.contains t.name then (t :: tail.1, t.name :: tail.2)
    else if ids.contains t.group_name then (t :: tail.1, t.group_name :: tail.2)
    else if ids.contains t.remote_server then
      (t :: tail.1, t.remote_server :: tail.2)
    else if ids.contains t.remote_address then
      (t :: tail.1, t.remote_address :: tail.2)
    else tail

/-- `TunnelConfig.get_tunnels`: returns the matching tunnels, or raises
(`RuntimeError`) carrying the identifiers that were not recorded as found. -/
def getTunnels (tunnels : List Tunnel) (ids : List String) :
    Except (List String) (List Tunnel) :=
  let scan := getTunnelsScan tunnels ids
  let notFound := ids.filter (fun i => !(scan.2.contains i))
  if notFound.isEmpty then Except.ok scan.1 else Except.error notFound

/-- The identifier credited by one tunnel during the scan: the first of its
name, group name, remote server, resolved address that lies in the
requested list (declarative reading of the `elif` chain). -/
def firstMatchAttr (t : Tunnel) (ids : List String) : Option String :=
  if ids.contains t.name then some t.name
  else if ids.contains t.group_name then some t.group_name
  else if ids.contains t.remote_server then some t.remote_server
  else if ids.contains t.remote_address then some t.remote_address
  else none

theorem getTunnelsScan_fst (tunnels : List Tunnel) (ids : List String) :
    (getTunnelsScan tunnels ids).1 =
      tunnels.filter (fun t => (firstMatchAttr t ids).isSome) := by
  induction tunnels with
  | nil => rfl
  | cons t rest ih =>
    by_cases h1 : t.name ∈ ids
    · simp [getTunnelsScan, firstMatchAttr, h1, ih]
    · by_cases h2 : t.group_name ∈ ids
      · simp [getTunnelsScan, firstMatchAttr, h1, h2, ih]
      · by_cases h3 : t.remote_server ∈ ids
        · simp [getTunnelsScan, firstMatchAttr, h1, h2, h3, ih]
        · by_cases h4 : t.remote_address ∈ ids
          · simp [getTunnelsScan, firstMatchAttr, h1, h2, h3, h4, ih]
          · simp [getTunnelsScan, firstMatchAttr, h1, h2, h3, h4, ih]

theorem getTunnelsScan_cons (t : Tunnel) (rest : List Tunnel)
    (ids : List String) :
    getTunnelsScan (t :: rest) ids =
      match firstMatchAttr t ids with
      | some a =>
        (t :: (getTunnelsScan rest ids).1, a :: (getTunnelsScan rest ids).2)
      | none => getTunnelsScan rest ids := by
  by_cases h1 : t.name ∈ ids
  · simp [getTunnelsScan, firstMatchAttr, h1]
  · by_cases h2 : t.group_name ∈ ids
    · simp [getTunnelsScan, firstMatchAttr, h1, h2]
    · by_cases h3 : t.remote_server ∈ ids
      · simp [getTunnelsScan, firstMatchAttr, h1, h2, h3]
      · by_cases h4 : t.remote_address ∈ ids
        · simp [getTunnelsScan, firstMatchAttr, h1, h2, h3, h4]
        · simp [getTunnelsScan, firstMatchAttr, h1, h2, h3, h4]

theorem getTunnelsScan_snd_mem (tunnels : List Tunnel)
    (ids : List String) (i : String) :
    i ∈ (getTunnelsScan tunnels ids).2 ↔
      ∃ t, t ∈ tunnels ∧ firstMatchAttr t ids = some i := by
  induction tunnels with
  | nil => simp [getTunnelsScan]
  | cons t rest ih =>
    rw [getTunnelsScan_cons]
    cases hf : firstMatchAttr t ids with
    | none =>
      rw [ih]
      constructor
      · rintro ⟨t', ht', hp⟩
        exact ⟨t', List.mem_cons_of_mem _ ht', hp⟩
      · rintro ⟨t₁, h₁, hp⟩
        rcases List.mem_cons.mp h₁ with rfl | h
        · rw [hf] at hp
          cases hp
        · exact ⟨t₁, h, hp⟩
    | some a =>
      constructor
      · intro hmem
        rcases List.mem_cons.mp hmem with rfl | h
        · exact ⟨t, List.mem_cons_self t rest, hf⟩
        · rcases ih.mp h with ⟨t', ht', hp⟩
          exact ⟨t', List.mem_cons_of_mem _ ht', hp⟩
      · rintro ⟨t₁, h₁, hp⟩
        rcases List.mem_cons.mp h₁ with rfl | h
        · rw [hf] at hp
          obtain rfl : a = i := Option.some.inj hp
          exact List.mem_cons_self a _
        · exact List.mem_cons_of_mem _ (ih.mpr ⟨t₁, h, hp⟩)

/-- Claim C3, counterexample to the claim as stated: with one tunnel named
`t1` in group `g`, the request `["t1", "g"]` has every identifier matching
at least one tunnel (`t1` by name, `g` by group), yet the lookup fails, and
the reported list names `g`, an identifier that does match a tunnel.  The
`elif` chain credits only the first matching attribute of each tunnel. -/
theorem c3_counterexample :
    (∀ i ∈ (["t1", "g"] : List String),
      ∃ t ∈ [Tunnel.mk "t1" "g" [] none none 22 "srv" "1.2.3.4" 80
          "127.0.0.1" 8080 false],
        i = t.name ∨ i = t.group_name ∨ i = t.remote_server ∨
          i = t.remote_address) ∧
    getTunnels [Tunnel.mk "t1" "g" [] none none 22 "srv" "1.2.3.4" 80
        "127.0.0.1" 8080 false] ["t1", "g"] =
      Except.error ["g"] := by
  exact ⟨by decide, rfl⟩

/-- Claim C3 (corrected): the lookup returns, in registry order, exactly
the tunnels with some requested attribute; it succeeds if and only if every
requested identifier is the first-matching attribute (name, then group,
then server, then address) credited by some tunnel, and on failure the
error lists exactly the identifiers not so credited — which can include
identifiers that do match a tunnel, when every such tunnel was credited for
a higher-priority attribute. -/
theorem c3_lookup_first_match_credit (tunnels : List Tunnel)
    (ids : List String) :
    getTunnels tunnels ids =
      (let errs := ids.filter
        (fun i => !(tunnels.any (fun t => firstMatchAttr t ids == some i)))
      if errs.isEmpty then
        Except.ok (tunnels.filter (fun t => (firstMatchAttr t ids).isSome))
      else Except.error errs) := by
  have hsnd : ∀ i, ((getTunnelsScan tunnels ids).2.contains i) =
      tunnels.any (fun t => firstMatchAttr t ids == some i) := by
    intro i
    apply Bool.coe_iff_coe.mp
    simp only [List.any_eq_true, beq_iff_eq]
    simpa using getTunnelsScan_snd_mem tunnels ids i
  have hfilter : ids.filter
        (fun i => !((getTunnelsScan tunnels ids).2.contains i)) =
      ids.filter
        (fun i => !(tunnels.any (fun t => firstMatchAttr t ids == some i))) := by
    apply List.filter_congr
    intro i _
    rw [hsnd i]
  rw [getTunnels]
  simp only [hfilter, getTunnelsScan_fst]

/-- Python attribute values reachable through `Tunnel`'s properties. -/
inductive PyVal
  | str (s : String)
  | int (n : Int)
  | bool (b : Bool)
  | strList (l : List String)
  | pynone
  deriving DecidableEq, Repr

/-- Python errors raised by the modelled fragments. `valueError` also covers
`OverflowError` from `int()` on a non-finite float. -/
inductive PyErr
  | attributeError (attr : String)
  | typeError
  | valueError
  deriving DecidableEq, Repr

/-- Attribute lookup `getattr(tunnel, attr)` over the `Tunnel` class's
public `@property` accessors: `some` for each defined property, `none`
(an `AttributeError`) for any other attribute name. -/
def Tunnel.getattr (t : Tunnel) (attr : String) : Option PyVal :=
  if attr = "name" then some (PyVal.str t.name)
  else if attr = "group_name" then some (PyVal.str t.group_name)
  else if attr = "ssh_options" then some (PyVal.strList t.ssh_options)
  else if attr = "ssh_key" then
    some (match t.ssh_key with
      | some s => PyVal.str s
      | none => PyVal.pynone)
  else if attr = "ssh_user" then
    some (match t.ssh_user with
      | some s => PyVal.str s
      | none => PyVal.pynone)
  else if attr = "ssh_port" then some (PyVal.int t.ssh_port)
  else if attr = "remote_server" then some (PyVal.str t.remote_server)
  else if attr = "remote_address" then some (PyVal.str t.remote_address)
  else if attr = "remote_port" then some (PyVal.int t.remote_port)
  else if attr = "local_address" then some (PyVal.str t.local_address)
  else if attr = "local_port" then some (PyVal.int t.local_port)
  else if attr = "is_reverse" then some (PyVal.bool t.reverse)
  else none

/-- `Tunnel.__eq__` as written in the source:
`(self._remote_address, self._remote_port) ==
 (other.remote_adress, other.remote_port)`.
The left tuple reads the fields directly; the right tuple goes through
attribute lookup on `other`, left to right, and the misspelled
`remote_adress` is not a `Tunnel` attribute. -/
def tunnelEqPy (t₁ t₂ : Tunnel) : Except PyErr Bool :=
  match t₂.getattr "remote_adress" with
  | none => Except.error (PyErr.attributeError "remote_adress")
  | some a =>
    match t₂.getattr "remote_port" with
    | none => Except.error (PyErr.attributeError "remote_port")
    | some p =>
      Except.ok (decide (a = PyVal.str t₁.remote_address ∧
        p = PyVal.int t₁.remote_port))

/-- Claim C4 (code bug): the equality test of two `Tunnel` entities never
returns a boolean — it always raises `AttributeError` on the misspelled
attribute `remote_adress` (the property is `remote_address`), even for two
identical tunnels, so `__eq__` and with it `__ne__` always fail instead of
comparing the (remote address, remote port) pairs. -/
theorem c4_eq_always_attribute_error (t₁ t₂ : Tunnel) :
    tunnelEqPy t₁ t₂ = Except.error (PyErr.attributeError "remote_adress") := by
  rfl

/-- Python default whitespace characters recognised by `str.strip()` and by
`int()` / `float()` around their argument. -/
def isPyWs (c : Char) : Bool :=
  c = ' ' || c = '\t' || c = '\n' || c = '\r' || c = '\x0b' || c = '\x0c'

/-- Decimal value of a non-empty all-digit character list. -/
def digitsToNat (ds : List Char) : Nat :=
  ds.foldl (fun a c => a * 10 + (c.toNat - 48)) 0

/-- Strip leading and trailing Python whitespace from a character list. -/
def trimPyWs (cs : List Char) : List Char :=
  ((cs.dropWhile isPyWs).reverse.dropWhile isPyWs).reverse

/-- Model of Python `int(s)` on a string: optional surrounding whitespace,
optional sign, one or more decimal digits; anything else raises
`ValueError`. -/
def pyIntParse (s : String) : Option Int :=
  match trimPyWs s.toList with
  | [] => none
  | c :: rest =>
    if c = '+' then
      if rest ≠ [] ∧ rest.all Char.isDigit then
        some (Int.ofNat (digitsToNat rest))
      else none
    else if c = '-' then
      if rest ≠ [] ∧ rest.all Char.isDigit then
        some (-(Int.ofNat (digitsToNat rest)))
      else none
    else
      if (c :: rest).all Char.isDigit then
        some (Int.ofNat (digitsToNat (c :: rest)))
      else none

/-- `ll_int` of the source: `int(var)` succeeds. -/
def ll_int (s : String) : Bool := (pyIntParse s).isSome

/-- Outcome tag of one field validation in `TunnelConfig._check_config`:
either the cleaned value or a `ConfigError`. -/
inductive CheckErr
  | configError
  deriving DecidableEq, Repr

/-- The `remote_port` validation branch of `TunnelConfig._check_config`:
reject when `ll_int` fails, coerce with `int`, reject when
`0 >= val or val > 65534`. -/
def checkRemotePortVal (val : String) : Except CheckErr Int :=
  if ll_int val = false then Except.error CheckErr.configError
  else
    match pyIntParse val with
    | none => Except.error CheckErr.configError
    | some v =>
      if 0 ≥ v ∨ v > 65534 then Except.error CheckErr.configError
      else Except.ok v

/-- The `local_port` validation branch (textually identical to the
`remote_port` one). -/
def checkLocalPortVal (val : String) : Except CheckErr Int :=
  if ll_int val = false then Except.error CheckErr.configError
  else
    match pyIntParse val with
    | none => Except.error CheckErr.configError
    | some v =>
      if 0 ≥ v ∨ v > 65534 then Except.error CheckErr.configError
      else Except.ok v

/-- The `ssh_port` validation branch (textually identical to the
`remote_port` one). -/
def checkSshPortVal (val : String) : Except CheckErr Int :=
  if ll_int val = false then Except.error CheckErr.configError
  else
    match pyIntParse val with
    | none => Except.error CheckErr.configError
    | some v =>
      if 0 ≥ v ∨ v > 65534 then Except.error CheckErr.configError
      else Except.ok v

/-- Claim C6 (confirmed): port validation rejects `"0"`, `"65535"` and the
non-integer `"abc"`, accepts `"1"` and `"65534"`, and in general accepts an
integer-coercible value exactly when it lies in `[1, 65534]`; the
`local_port` and `ssh_port` branches behave identically to `remote_port`. -/
theorem c6_port_bounds :
    checkRemotePortVal "0" = Except.error CheckErr.configError ∧
    checkRemotePortVal "65535" = Except.error CheckErr.configError ∧
    checkRemotePortVal "abc" = Except.error CheckErr.configError ∧
    checkRemotePortVal "1" = Except.ok 1 ∧
    checkRemotePortVal "65534" = Except.ok 65534 ∧
    (∀ (s : String) (n : Int), pyIntParse s = some n →
      (checkRemotePortVal s = Except.ok n ↔ 1 ≤ n ∧ n ≤ 65534)) ∧
    (∀ s : String, checkLocalPortVal s = checkRemotePortVal s ∧
      checkSshPortVal s = checkRemotePortVal s) := by
  refine ⟨rfl, rfl, rfl, rfl, rfl, ?_, fun s => ⟨rfl, rfl⟩⟩
  intro s n h
  have hll : ll_int s = true := by
    rw [ll_int, h]
    rfl
  rw [checkRemotePortVal, hll]
  simp only [Bool.true_eq_false, if_false, h]
  constructor
  · intro hok
    by_cases hb : 0 ≥ n ∨ n > 65534
    · simp [hb] at hok
    · omega
  · intro hb
    have hb' : ¬(0 ≥ n ∨ n > 65534) := by omega
    simp [hb']

/-- Claim C6 witness: the general bound applied at the concrete parse
`pyIntParse "17" = some 17`. -/
theorem c6_port_bounds_witness :
    pyIntParse "17" = some 17 ∧
    (checkRemotePortVal "17" = Except.ok 17 ↔
      1 ≤ (17 : Int) ∧ (17 : Int) ≤ 65534) := by
  exact ⟨by decide, c6_port_bounds.2.2.2.2.2.1 "17" 17 (by decide)⟩

/-- `KillEventHandler.INTERVAL`, one second, in microseconds (timestamps
model `datetime.datetime.utcnow()` instants as integer microseconds). -/
def killInterval : Int := 1000000

/-- What one run of `KillEventHandler._on_signal` does after bookkeeping:
`os._exit` (hard exit bypassing cleanup) or raising `KeyboardInterrupt`
(the normal stop condition). -/
inductive SignalOutcome
  | hardExit
  | stopRaised
  deriving DecidableEq, Repr

/-- State update of `_on_signal`: append the new timestamp to `_quit_msg`
and truncate to the last `EVENT_COUNT = 3` entries when longer. -/
def onSignalMsgs (msgs : List Int) (t : Int) : List Int :=
  if (msgs ++ [t]).length > 3 then
    (msgs ++ [t]).drop ((msgs ++ [t]).length - 3)
  else msgs ++ [t]

/-- Decision of `_on_signal`: hard exit exactly when at least three
timestamps are retained and the last minus the first of them is strictly
below `INTERVAL`; otherwise raise `KeyboardInterrupt`. -/
def onSignalOutcome (msgs : List Int) (t : Int) : SignalOutcome :=
  if 3 ≤ (onSignalMsgs msgs t).length ∧
      (onSignalMsgs msgs t).getLastD 0 - (onSignalMsgs msgs t).headD 0 <
        killInterval then
    SignalOutcome.hardExit
  else SignalOutcome.stopRaised

/-- `_quit_msg` after a sequence of signals, starting from the empty list
installed by `KillEventHandler.initialise`. -/
def runSignals (ts : List Int) : List Int := ts.foldl onSignalMsgs []

theorem onSignalMsgs_eq_drop (msgs : List Int) (t : Int) :
    onSignalMsgs msgs t =
      (msgs ++ [t]).drop ((msgs ++ [t]).length - 3) := by
  by_cases h : (msgs ++ [t]).length > 3
  · rw [onSignalMsgs, if_pos h]
  · rw [onSignalMsgs, if_neg h]
    have h0 : (msgs ++ [t]).length - 3 = 0 := by omega
    rw [h0, List.drop_zero]

theorem runSignalsFold (ts : List Int) : ∀ msgs : List Int,
    msgs.length ≤ 3 →
    ts.foldl onSignalMsgs msgs = (msgs ++ ts).drop ((msgs ++ ts).length - 3) := by
  induction ts with
  | nil =>
    intro msgs h
    have h0 : msgs.length - 3 = 0 := by omega
    simp [h0]
  | cons t ts' ih =>
    intro msgs h
    rw [List.foldl_cons]
    have hlen : (onSignalMsgs msgs t).length ≤ 3 := by
      rw [onSignalMsgs_eq_drop, List.length_drop]
      omega
    rw [ih _ hlen, onSignalMsgs_eq_drop]
    have hassoc : msgs ++ t :: ts' = (msgs ++ [t]) ++ ts' := by simp
    rw [hassoc]
    rcases Nat.lt_or_ge (msgs ++ [t]).length 4 with h4 | h4
    · have hk : (msgs ++ [t]).length - 3 = 0 := by omega
      rw [hk, List.drop_zero]
    · have hA : (msgs ++ [t]).length = 4 := by
        simp only [List.length_append, List.length_cons, List.length_nil]
        simp at h4 ⊢
        omega
      rcases hAe : msgs ++ [t] with _ | ⟨a, A⟩
      · rw [hAe] at hA
        simp at hA
      · rw [hAe] at hA
        simp only [List.length_cons] at hA
        have hA3 : A.length = 3 := by omega
        have hk : (a :: A).length - 3 = 1 := by
          simp [List.length_cons, hA3]
        rw [hk]
        have e1 : ((a :: A) ++ ts').length - 3 =
            ((A ++ ts').length - 3) + 1 := by
          simp only [List.length_cons, List.length_append, hA3]
          omega
        have e2 : (a :: A).drop 1 = A := rfl
        rw [e2, e1]
        have e3 : (a :: A) ++ ts' = a :: (A ++ ts') := by simp
        rw [e3, List.drop_succ_cons]

theorem runSignals_eq_drop (l : List Int) :
    runSignals l = l.drop (l.length - 3) := by
  have h := runSignalsFold l [] (by simp)
  simpa [runSignals] using h

/-- Claim C9 (confirmed): starting from the freshly initialised handler
state, a further interrupt at time `t` forces the immediate non-graceful
exit exactly when at least three signals have been received in total and
`t` minus the first of the last three timestamps is strictly less than one
second; in every other case (including three interrupts spread over five
seconds) only the normal stop condition (`KeyboardInterrupt`) is raised. -/
theorem c9_signal_escalation :
    (∀ (prev : List Int) (t : Int),
      onSignalOutcome (runSignals prev) t = SignalOutcome.hardExit ↔
        (3 ≤ (prev ++ [t]).length ∧
          t - ((prev ++ [t]).drop ((prev ++ [t]).length - 3)).headD 0 <
            killInterval)) ∧
    onSignalOutcome (runSignals [0, 2500000]) 5000000 =
      SignalOutcome.stopRaised ∧
    onSignalOutcome (runSignals [0, 300000]) 900000 =
      SignalOutcome.hardExit := by
  refine ⟨?_, by decide, by decide⟩
  intro prev t
  have hrun : onSignalMsgs (runSignals prev) t = runSignals (prev ++ [t]) := by
    simp [runSignals, List.foldl_append]
  have hm : runSignals (prev ++ [t]) =
      (prev ++ [t]).drop ((prev ++ [t]).length - 3) :=
    runSignals_eq_drop (prev ++ [t])
  rw [onSignalOutcome]
  simp only [hrun, hm]
  by_cases h3 : 3 ≤ (prev ++ [t]).length
  · have hk : (prev ++ [t]).length - 3 ≤ prev.length := by
      simp only [List.length_append, List.length_cons, List.length_nil]
      omega
    have hdec : (prev ++ [t]).drop ((prev ++ [t]).length - 3) =
        prev.drop ((prev ++ [t]).length - 3) ++ [t] := by
      rw [List.drop_append_eq_append_drop]
      have : (prev ++ [t]).length - 3 - prev.length = 0 := by omega
      rw [this, List.drop_zero]
    have hlast : ((prev ++ [t]).drop ((prev ++ [t]).length - 3)).getLastD 0 =
        t := by
      rw [hdec, List.getLastD_concat]
    have hlen3 : ((prev ++ [t]).drop ((prev ++ [t]).length - 3)).length = 3 := by
      rw [List.length_drop]
      omega
    rw [hlen3, hlast]
    by_cases hc : t -
        ((prev ++ [t]).drop ((prev ++ [t]).length - 3)).headD 0 <
          killInterval
    · rw [if_pos ⟨by norm_num, hc⟩]
      exact iff_of_true rfl ⟨h3, hc⟩
    · rw [if_neg (fun hx => hc hx.2)]
      exact iff_of_false (fun hx => SignalOutcome.noConfusion hx)
        (fun hx => hc hx.2)
  · have hlen : ((prev ++ [t]).drop ((prev ++ [t]).length - 3)).length =
        (prev ++ [t]).length := by
      have hk0 : (prev ++ [t]).length - 3 = 0 := by omega
      rw [hk0, List.drop_zero]
    rw [hlen]
    rw [if_neg (fun hx => h3 hx.1)]
    exact iff_of_false (fun hx => SignalOutcome.noConfusion hx)
      (fun hx => h3 hx.1)

/-- Input domain of the boolean helpers as exercised by the program:
`None`, an actual `bool`, or a string (config values). -/
inductive ConfVal
  | pynone
  | pybool (b : Bool)
  | pystr (s : String)
  deriving DecidableEq, Repr

/-- Result of Python `float(s)` on a string, in an exact-decimal model:
`finiteInt n` when the literal parses and `int(float(s))` truncates to `n`
(truncation toward zero computed exactly on the decimal literal, IEEE-754
rounding abstracted away), `nonFinite` for `nan`/`inf`/`infinity` literals,
on which a later `int()` raises. -/
inductive FloatRep
  | finiteInt (n : Int)
  | nonFinite
  deriving DecidableEq, Repr

/-- Mantissa of a float literal: `D+ [. D*]` or `. D+`; returns the digits
value, the number of fractional digits and the unconsumed remainder. -/
def mantissaOf (cs : List Char) : Option (Nat × Nat × List Char) :=
  let ip := cs.takeWhile Char.isDigit
  let r₁ := cs.dropWhile Char.isDigit
  match r₁ with
  | '.' :: r₂ =>
    let fp := r₂.takeWhile Char.isDigit
    let r₃ := r₂.dropWhile Char.isDigit
    if ip.isEmpty && fp.isEmpty then none
    else some (digitsToNat (ip ++ fp), fp.length, r₃)
  | _ =>
    if ip.isEmpty then none else some (digitsToNat ip, 0, r₁)

/-- Exponent tail of a float literal: empty, or `eE [+-] D+` consuming the
whole remainder. -/
def expOf (cs : List Char) : Option Int :=
  match cs with
  | [] => some 0
  | c :: r₁ =>
    if c = 'e' || c = 'E' then
      match r₁ with
      | '+' :: r₂ =>
        if r₂ ≠ [] ∧ r₂.all Char.isDigit then
          some (Int.ofNat (digitsToNat r₂))
        else none
      | '-' :: r₂ =>
        if r₂ ≠ [] ∧ r₂.all Char.isDigit then
          some (-(Int.ofNat (digitsToNat r₂)))
        else none
      | r₂ =>
        if r₂ ≠ [] ∧ r₂.all Char.isDigit then
          some (Int.ofNat (digitsToNat r₂))
        else none
    else none

/-- Exact truncation toward zero of `m × 10 ^ (e - fracLen)` (`m : Nat`). -/
def truncDecimal (m : Nat) (fracLen : Nat) (e : Int) : Nat :=
  if fracLen ≤ e then m * 10 ^ (e - fracLen).toNat
  else m / 10 ^ ((fracLen : Int) - e).toNat

/-- Special non-finite float literals (case-insensitive). -/
def specialFloat (cs : List Char) : Bool :=
  let l := cs.map Char.toLower
  l = "inf".toList || l = "infinity".toList || l = "nan".toList

/-- Body of a float literal after the optional sign. -/
def pyFloatBody (cs : List Char) (neg : Bool) : Option FloatRep :=
  if specialFloat cs then some FloatRep.nonFinite
  else
    match mantissaOf cs with
    | none => none
    | some (m, fl, rest) =>
      match expOf rest with
      | none => none
      | some e =>
        let n := truncDecimal m fl e
        some (FloatRep.finiteInt
          (if neg then -(Int.ofNat n) else Int.ofNat n))

/-- Model of Python `float(s)` composed with `int(...)` on a string:
`none` when `float(s)` raises `ValueError`. -/
def pyFloatOf (s : String) : Option FloatRep :=
  match trimPyWs s.toList with
  | [] => none
  | '+' :: r => pyFloatBody r false
  | '-' :: r => pyFloatBody r true
  | r => pyFloatBody r false

/-- `ll_float` of the source: `float(var)` succeeds (`TypeError` for `None`,
`1.0` for an actual `bool`). -/
def ll_float (v : ConfVal) : Bool :=
  match v with
  | ConfVal.pynone => false
  | ConfVal.pybool _ => true
  | ConfVal.pystr s => (pyFloatOf s).isSome

/-- `int(float(value))` on a string: `some n` when it returns `n`, `none`
when `int()` raises on a non-finite float. -/
def intFloatOf (s : String) : Option Int :=
  match pyFloatOf s with
  | some (FloatRep.finiteInt n) => some n
  | _ => none

/-- The truthy word list of `ll_bool` / `to_bool`. -/
def yesWords : List String :=
  ["yes", "true", "t", "y", "1", "o", "oui", "on"]

/-- The falsy word list of `ll_bool` / `to_bool`. -/
def noWords : List String :=
  ["no", "false", "f", "n", "0", "non", "off"]

/-- Model of `str.lower()` (ASCII case folding). -/
def pyLower (s : String) : String := (s.toList.map Char.toLower).asString

/-- `ll_bool` of the source: check whether a value looks like a bool.  The
call `int(float(value))` inside the check is not guarded, so a string that
parses as a non-finite float makes `ll_bool` itself raise. -/
def ll_bool (value : ConfVal) : Except PyErr Bool :=
  match value with
  | ConfVal.pynone => Except.ok false
  | ConfVal.pybool _ => Except.ok true
  | ConfVal.pystr s =>
    if ll_float (ConfVal.pystr s) then
      match intFloatOf s with
      | some n => Except.ok (n == 0 || n == 1)
      | none => Except.error PyErr.valueError
    else
      if yesWords.contains (pyLower s) then Except.ok true
      else if noWords.contains (pyLower s) then Except.ok true
      else Except.ok false

/-- `to_bool` of the source: convert a value to bool, raising `TypeError`
when it is not boolean-like. -/
def to_bool (value : ConfVal) : Except PyErr Bool :=
  match value with
  | ConfVal.pynone => Except.error PyErr.typeError
  | ConfVal.pybool b => Except.ok b
  | ConfVal.pystr s =>
    if ll_float (ConfVal.pystr s) then
      match intFloatOf s with
      | some n =>
        if !(n == 0 || n == 1) then Except.error PyErr.typeError
        else Except.ok (n == 1)
      | none => Except.error PyErr.valueError
    else
      if yesWords.contains (pyLower s) then Except.ok true
      else if noWords.contains (pyLower s) then Except.ok false
      else Except.error PyErr.typeError

/-- Claim C10 (confirmed): over the value domain the program feeds to them,
`ll_bool` answers `True` exactly when `to_bool` returns a boolean without
raising, so the `reverse`-key validation (first `ll_bool`, then `to_bool`)
never hits an unexpected `TypeError` after the check has passed. -/
theorem c10_ll_bool_to_bool_agree (v : ConfVal) :
    ll_bool v = Except.ok true ↔ ∃ b, to_bool v = Except.ok b := by
  cases v with
  | pynone => simp [ll_bool, to_bool]
  | pybool b => simp [ll_bool, to_bool]
  | pystr s =>
    by_cases hf : ll_float (ConfVal.pystr s)
    · cases hn : intFloatOf s with
      | some n =>
        by_cases h01 : n == 0 || n == 1
        · simp [ll_bool, to_bool, hf, hn, h01]
        · simp [ll_bool, to_bool, hf, hn, h01]
      | none => simp [ll_bool, to_bool, hf, hn]
    · by_cases hy : pyLower s ∈ yesWords
      · simp [ll_bool, to_bool, hf, hy]
      · by_cases hno : pyLower s ∈ noWords
        · simp [ll_bool, to_bool, hf, hy, hno]
        · simp [ll_bool, to_bool, hf, hy, hno]

/-- Model of the filesystem and glob collaborator used by
`TunnelConfig._pre_process_file`: file contents by name (lines without
their trailing newline) and the result of `glob.glob` for a pattern
(resolution relative to the including file's directory is part of the
collaborator). -/
structure FileSys where
  files : List (String × List String)
  globMatch : String → List String

/-- Match of `INCLUDE_RE = ^\s*include[ :=]\s*(.*)\s*$` (case-insensitive)
against one line, returning the captured glob pattern. -/
def matchInclude (line : String) : Option String :=
  let cs := line.toList.dropWhile isPyWs
  if (cs.take 7).map Char.toLower = "include".toList then
    match cs.drop 7 with
    | c :: rest =>
      if c = ' ' || c = ':' || c = '=' then
        some ((rest.dropWhile isPyWs).asString)
      else none
    | [] => none
  else none

/-- Match of `SECTION_RE = ^\s*\[(.*)\]\s*$` against one line, returning
the captured section name (up to the last `]` followed only by
whitespace). -/
def matchSection (line : String) : Option String :=
  match line.toList.dropWhile isPyWs with
  | '[' :: rest =>
    match rest.reverse.dropWhile isPyWs with
    | ']' :: mid => some mid.reverse.asString
    | _ => none
  | _ => none

/-- Python `str.strip()`. -/
def trimWsStr (s : String) : String := (trimPyWs s.toList).asString

/-- `os.path.basename`: the part after the last path separator. -/
def basenameOf (cs : List Char) : List Char :=
  (cs.reverse.takeWhile (fun c => c ≠ '/')).reverse

/-- Root part of `os.path.splitext`: strip the extension after the last
dot, unless only dots precede it. -/
def dropExt (cs : List Char) : List Char :=
  let rev := cs.reverse
  let after := rev.takeWhile (fun c => c ≠ '.')
  if after.length = rev.length then cs
  else
    let preRev := rev.drop (after.length + 1)
    if preRev.any (fun c => c ≠ '.') then preRev.reverse else cs

/-- `os.path.splitext(os.path.basename(f))[0]` of the source. -/
def basenameNoExt (f : String) : String :=
  (dropExt (basenameOf f.toList)).asString

/-- Failures of the modelled preprocessing.  `recursionDepth` stands for
CPython aborting the unguarded recursion when the interpreter recursion
limit is reached (`RuntimeError: maximum recursion depth exceeded`, wrapped
into a generic `ConfigError` by `_parse_config`'s catch-all). -/
inductive PPErr
  | recursionDepth
  | missingFile (f : String)
  deriving DecidableEq, Repr

/-- `TunnelConfig._pre_process_file`, fuel-indexed: the fuel is the
remaining interpreter recursion depth.  Each line is either an `include`
directive — replaced by the recursively preprocessed matching files, each
under subsection `<enclosing>/<basename-without-extension>` — or, when a
subsection is active, a section header rewritten to
`[subsection/original]`; all other lines pass through.  The final
`check_ini_content` syntax assertion on the produced text is abstracted
away (it does not alter the text). -/
def preProcessFile (env : FileSys) :
    Nat → String → Option String → Except PPErr String
  | 0, _, _ => Except.error PPErr.recursionDepth
  | fuel + 1, filename, subSection => do
    let lines ←
      match alGet env.files filename with
      | some ls => Except.ok ls
      | none => Except.error (PPErr.missingFile filename)
    lines.foldlM
      (fun (acc : String) line =>
        match matchInclude line with
        | some pat =>
          (env.globMatch pat).foldlM
            (fun (acc₂ : String) subFile => do
              let subsub :=
                (match subSection with
                 | none => ""
                 | some ss => ss ++ "/") ++ basenameNoExt subFile
              let content ←
                preProcessFile env fuel (trimWsStr subFile) (some subsub)
              pure (acc₂ ++ "\n" ++ "\n" ++ content))
            acc
        | none =>
          match subSection with
          | some ss =>
            match matchSection line with
            | some name => pure (acc ++ "[" ++ ss ++ "/" ++ name ++ "]" ++ "\n")
            | none => pure (acc ++ line ++ "\n")
          | none => pure (acc ++ line ++ "\n"))
      (match subSection with
       | none => ""
       | some ss => "[" ++ ss ++ "]" ++ "\n")

/-- A configuration that includes itself: `a.conf` consists of the single
line `include a.conf`, whose glob matches `a.conf` itself. -/
def cycFiles : FileSys where
  files := [("a.conf", ["include a.conf"])]
  globMatch := fun pat => if pat = "a.conf" then ["a.conf"] else []

/-- Claim C2 (code bug): the source tracks no set of in-flight files, so on
the self-including configuration the preprocessing recurses forever — for
every remaining recursion depth the run ends by exhausting that depth, not
by detecting the cycle.  (In CPython the interpreter recursion limit turns
this into `RuntimeError: maximum recursion depth exceeded`, re-wrapped as a
generic `ConfigError`, rather than the fail-fast cycle rejection the claim
and the spec require.) -/
theorem c2_include_cycle_exhausts_any_depth (fuel : Nat) :
    ∀ sub : Option String,
      preProcessFile cycFiles fuel "a.conf" sub =
        Except.error PPErr.recursionDepth := by
  induction fuel with
  | zero =>
    intro sub
    rfl
  | succ n ih =>
    intro sub
    have hinc : matchInclude "include a.conf" = some "a.conf" := rfl
    have htrim : trimWsStr "a.conf" = "a.conf" := rfl
    have hglob : cycFiles.globMatch "a.conf" = ["a.conf"] := rfl
    have hfiles : alGet cycFiles.files "a.conf" =
        some ["include a.conf"] := rfl
    simp [preProcessFile, hinc, htrim, hglob, hfiles, ih,
      bind, Except.bind, pure, Except.pure]

end SshTunnels
